import Mathlib

/-!
Verification of the code-level-metrics core (v3/newrelic/code_level_metrics.go).

The Go code is shallowly embedded as pure Lean functions:

* Go strings stay `String` (the embedding indexes by characters; the claims
  involve only ASCII data, where byte and character indices coincide).
* Go slices that the code compares against `nil` become `Option (List _)`,
  with `none` standing for a nil slice and `some []` for an empty non-nil one.
* Go pointer results (`*CodeLocation`) become `Option CodeLocation`.
* `error` results become `Except String _` or `Option String` carrying the
  exact message built by `errors.New`.
* Calls into the Go runtime (`runtime.Callers`, reflection) are embedded by
  passing the observed call stack / reflected value explicitly as data
  (`List Frame`, `GoValue`).
* The `sync.Once` guard of `CachedCodeLocation` is embedded sequentially as a
  boolean `onceDone` flag with explicit state passing.
-/

/-- Embeds the constant `defaultAgentProjectRoot`: the filename pattern at the
root of the agent import path, used to recognise agent-internal stack frames. -/
def defaultAgentProjectRoot : String := "github.com/newrelic/go-agent/"

/-- Embeds the Go struct `CodeLocation`: a line number, a fully qualified
function name and an absolute file path. -/
structure CodeLocation where
  LineNo : Int
  Function : String
  FilePath : String
deriving DecidableEq

/-- Embeds `runtime.Frame` as far as the code reads it: function name, source
file and line of one call-stack entry. -/
structure Frame where
  Function : String
  File : String
  Line : Int
deriving DecidableEq

/-- The metadata `runtime.FuncForPC` exposes for a function value: the result
of `Name()` and of `FileLine(Entry())`. -/
structure FuncInfo where
  Name : String
  File : String
  Line : Int
deriving DecidableEq

/-- A Go `interface\x7b\x7d` value as `FunctionLocation` discriminates it: the nil
interface, a function value (with or without runtime location metadata), or a
value of any non-function reflect kind (the kind recorded as a tag). -/
inductive GoValue where
  | goNil : GoValue
  | goFunc : Option FuncInfo → GoValue
  | nonFunc : String → GoValue
deriving DecidableEq

/-- Embeds the Go struct `CachedCodeLocation`. The `sync.Once` field is
embedded as the flag `onceDone`: true once the guarded resolution has run.
`Location` and `Err` model the `*CodeLocation` and `error` members. -/
structure CachedCodeLocation where
  Location : Option CodeLocation
  Err : Option String
  onceDone : Bool
deriving DecidableEq

/-- Embeds the Go struct `traceOptSet`. The two slice members are `Option`
lists so that a nil slice (`none`) and an empty non-nil slice (`some []`)
stay distinct, as the code distinguishes them with `== nil` tests. -/
structure traceOptSet where
  LocationOverride : Option CodeLocation
  SuppressCLM : Bool
  DemandCLM : Bool
  IgnoredPrefixes : Option (List String)
  PathPrefixes : Option (List String)
deriving DecidableEq

/-- The zero value `traceOptSet\x7b\x7d` that `resolveCLMTraceOptions` starts from. -/
def emptyTraceOptSet : traceOptSet :=
  { LocationOverride := none, SuppressCLM := false, DemandCLM := false,
    IgnoredPrefixes := none, PathPrefixes := none }

/-- Embeds the type `TraceOption`. The Go option mutates a `*traceOptSet`;
the embedding returns the updated value. -/
def TraceOption : Type := traceOptSet → traceOptSet

/-- Embeds `WithCodeLocation`: records the given (possibly nil) location
pointer as the explicit override. -/
def WithCodeLocation (loc : Option CodeLocation) : TraceOption :=
  fun o => { o with LocationOverride := loc }

/-- Embeds `WithIgnoredPrefix`: stores the variadic prefix slice (nil when no
argument was passed) as the ignored-prefix list, replacing any previous one. -/
def WithIgnoredPrefix (prefixes : Option (List String)) : TraceOption :=
  fun o => { o with IgnoredPrefixes := prefixes }

/-- Embeds `WithPathPrefix`: stores the variadic prefix slice (nil when no
argument was passed) as the path-prefix list, replacing any previous one. -/
def WithPathPrefix (prefixes : Option (List String)) : TraceOption :=
  fun o => { o with PathPrefixes := prefixes }

/-- Embeds `WithoutCodeLevelMetrics`: sets the suppression flag. -/
def WithoutCodeLevelMetrics : TraceOption :=
  fun o => { o with SuppressCLM := true }

/-- Embeds `WithCodeLevelMetrics`: sets the demand flag. -/
def WithCodeLevelMetrics : TraceOption :=
  fun o => { o with DemandCLM := true }

/-- Embeds the stand-alone `FunctionLocation`: nil and non-function values
yield the two invalid-argument errors, a function value without runtime
metadata yields the not-found error, and otherwise the entry-point file,
line and fully qualified name are returned. -/
def FunctionLocation : GoValue → Except String CodeLocation
  | .goNil => .error "nil function passed to FunctionLocation"
  | .nonFunc _ => .error "value passed to FunctionLocation is not a function"
  | .goFunc none => .error "could not find code location for function"
  | .goFunc (some fInfo) =>
      .ok { LineNo := fInfo.Line, Function := fInfo.Name, FilePath := fInfo.File }

/-- Embeds the method `(c *CachedCodeLocation) FunctionLocation`: under the
once-guard the stand-alone resolution runs and its result (value or error) is
stored; the stored pair is returned together with the updated cache state. -/
def cachedFunctionLocation (c : CachedCodeLocation) (function : GoValue) :
    (Option CodeLocation × Option String) × CachedCodeLocation :=
  let c' :=
    if c.onceDone then c
    else
      match FunctionLocation function with
      | .ok loc => { Location := some loc, Err := none, onceDone := true }
      | .error e => { Location := none, Err := some e, onceDone := true }
  ((c'.Location, c'.Err), c')

/-- Embeds `WithFunctionLocation`: resolves the function value and, only on
success, records the location as the override; errors are swallowed. -/
def WithFunctionLocation (function : GoValue) : TraceOption :=
  fun o =>
    match FunctionLocation function with
    | .ok loc => { o with LocationOverride := some loc }
    | .error _ => o

/-- Embeds the method `(c *CachedCodeLocation) WithFunctionLocation`: like the
stand-alone option but resolving through the cache; returns the updated
settings and cache state. -/
def cachedWithFunctionLocation (c : CachedCodeLocation) (function : GoValue)
    (o : traceOptSet) : traceOptSet × CachedCodeLocation :=
  let r := cachedFunctionLocation c function
  match r.1.2 with
  | none => ({ o with LocationOverride := r.1.1 }, r.2)
  | some _ => (o, r.2)

/-- Embeds `WithDefaultFunctionLocation`: runs `WithFunctionLocation` only
when no location override has been set yet. -/
def WithDefaultFunctionLocation (function : GoValue) : TraceOption :=
  fun o =>
    if o.LocationOverride = none then WithFunctionLocation function o else o

/-- Embeds the method `(c *CachedCodeLocation) WithDefaultFunctionLocation`:
when no override is set yet, resolves through the cache and, on success,
applies `WithCodeLocation` with the cached location. -/
def cachedWithDefaultFunctionLocation (c : CachedCodeLocation)
    (function : GoValue) (o : traceOptSet) : traceOptSet × CachedCodeLocation :=
  if o.LocationOverride = none then
    let r := cachedFunctionLocation c function
    match r.1.2 with
    | none => (WithCodeLocation r.1.1 o, r.2)
    | some _ => (o, r.2)
  else (o, c)

/-- Embeds `withPreparedOptions`: copies the override and the two lists only
when non-nil, and both flags unconditionally, from an already evaluated set. -/
def withPreparedOptions (newOptions : Option traceOptSet) : TraceOption :=
  fun o =>
    match newOptions with
    | none => o
    | some n =>
        let o1 := match n.LocationOverride with
          | some l => { o with LocationOverride := some l }
          | none => o
        let o2 := { o1 with SuppressCLM := n.SuppressCLM, DemandCLM := n.DemandCLM }
        let o3 := match n.IgnoredPrefixes with
          | some l => { o2 with IgnoredPrefixes := some l }
          | none => o2
        match n.PathPrefixes with
        | some l => { o3 with PathPrefixes := some l }
        | none => o3

/-- Embeds the stand-alone `ThisCodeLocation`. The ambient call stack is
passed explicitly: `stack` lists the frames as `runtime.Callers` numbers
them, frame 0 being `runtime.Callers` itself, frame 1 the resolver, frame 2
its caller. The variadic skip argument is the (possibly empty) list
`skipLevels`; the selected frame sits at depth `2 + skipLevels[0]`, and a
stack too short yields the zero-valued location. -/
def ThisCodeLocation (stack : List Frame) (skipLevels : List Nat) : CodeLocation :=
  let skip := 2 + (match skipLevels with | [] => 0 | k :: _ => k)
  match stack.drop skip with
  | f :: _ => { LineNo := f.Line, Function := f.Function, FilePath := f.File }
  | [] => { LineNo := 0, Function := "", FilePath := "" }

/-- Alias used by the cached wrapper below, mirroring that the method body
calls the stand-alone resolver. -/
def thisCodeLocationImpl : List Frame → List Nat → CodeLocation := ThisCodeLocation

/-- Embeds the method `(c *CachedCodeLocation) ThisCodeLocation`: under the
once-guard it resolves with four extra skip levels (compensating the wrapper
frames) and clears `Err`; the stored location is returned with the updated
cache state. -/
def cachedThisCodeLocation (c : CachedCodeLocation) (stack : List Frame)
    (skipLevels : List Nat) : Option CodeLocation × CachedCodeLocation :=
  let skip := match skipLevels with | [] => 0 | k :: _ => k
  let c' :=
    if c.onceDone then c
    else
      { Location := some (thisCodeLocationImpl stack [skip + 4]), Err := none,
        onceDone := true }
  (c'.Location, c')

/-- Embeds `WithThisCodeLocation`: an explicit override at the call site of
the option constructor (skip level 1 relative to the resolver). -/
def WithThisCodeLocation (stack : List Frame) : TraceOption :=
  WithCodeLocation (some (ThisCodeLocation stack [1]))

/-- The loop body of `resolveCLMTraceOptions`: applies the options in order
to the accumulating set, stopping right after an option turns on
suppression. -/
def applyCLMOptions (optSet : traceOptSet) : List TraceOption → traceOptSet
  | [] => optSet
  | o :: rest =>
      let s := o optSet
      if s.SuppressCLM then s else applyCLMOptions s rest

/-- Embeds `resolveCLMTraceOptions`: folds the option list left to right into
a fresh zero-valued `traceOptSet`, short-circuiting on suppression. -/
def resolveCLMTraceOptions (options : List TraceOption) : traceOptSet :=
  applyCLMOptions emptyTraceOptSet options

/-- Embeds `strings.HasPrefix(s, p)` (character-based). -/
def strHasPrefix (s p : String) : Bool :=
  p.toList.isPrefixOf s.toList

/-- Embeds the anonymous predicate inside the stack walk of
`reportCodeLevelMetrics`, inverted: true when the function name of the frame
starts with at least one ignored prefix. -/
def frameMatches (ignored : List String) (f : Frame) : Bool :=
  ignored.any (fun p => strHasPrefix f.Function p)

/-- Embeds the stack-walk loop of `reportCodeLevelMetrics`: frames are read
innermost first; the walk stops at the first frame whose function name starts
with no ignored prefix, and the last frame read is kept when every frame
matched (the predicate of the final frame is never able to reject it, since
`moreToRead` is already false). The empty case is unreachable under the
`depth > 0` guard and yields the zero frame. -/
def selectFrame (ignored : List String) : List Frame → Frame
  | [] => { Function := "", File := "", Line := 0 }
  | f :: rest =>
      if rest.isEmpty then f
      else if frameMatches ignored f then selectFrame ignored rest else f

/-- Embeds the subset of `run.Config.CodeLevelMetrics` the code reads: the
plural prefix lists (nil-able slices) and the two legacy singular fields. -/
structure CLMConfig where
  IgnoredPrefixes : Option (List String)
  IgnoredPrefix : String
  PathPrefixes : Option (List String)
  PathPrefix : String
deriving DecidableEq

/-- Embeds lines 411 to 420 of the source: when the settings carry a nil
ignored-prefix slice, take the configured plural list, append the legacy
singular prefix when non-empty (Go append on a nil slice makes a fresh one),
and fall back to the agent project root when the result is still nil. -/
def effectiveIgnoredPrefixes (tOpts : traceOptSet) (cfg : CLMConfig) : List String :=
  match tOpts.IgnoredPrefixes with
  | some l => l
  | none =>
      let l1 : Option (List String) :=
        if cfg.IgnoredPrefix ≠ "" then
          some ((cfg.IgnoredPrefixes.getD []) ++ [cfg.IgnoredPrefix])
        else cfg.IgnoredPrefixes
      match l1 with
      | none => [defaultAgentProjectRoot]
      | some l => l

/-- Embeds `strings.Index` on character lists: the position of the first
occurrence of `pat`, or `none` when absent. -/
def listIndexOf (pat : List Char) : List Char → Option Nat
  | [] => if pat.isPrefixOf ([] : List Char) then some 0 else none
  | c :: rest =>
      if pat.isPrefixOf (c :: rest) then some 0
      else (listIndexOf pat rest).map (· + 1)

/-- Embeds `strings.Index(s, sub)` (character-based; negative results become
`none`). -/
def strIndex (s sub : String) : Option Nat :=
  listIndexOf sub.toList s.toList

/-- Embeds the path-prefix scan of `reportCodeLevelMetrics` (lines 452 to
459): at the first prefix occurring anywhere in the path, cut the path so it
starts at the occurrence and stop; otherwise leave it unchanged. -/
def trimPath (path : String) : List String → String
  | [] => path
  | p :: rest =>
      match strIndex path p with
      | some i => String.mk (path.toList.drop i)
      | none => trimPath path rest

/-- The position of the last `.` in a character list, embedding
`strings.LastIndex(s, ".")`. -/
def lastDotIndex : List Char → Option Nat
  | [] => none
  | c :: rest =>
      match lastDotIndex rest with
      | some i => some (i + 1)
      | none => if c = '.' then some 0 else none

/-- Embeds lines 461 to 468 of the source: split the fully qualified function
name at the last dot into the namespace part and the bare function name; with
no dot, the namespace is empty and the function is the whole name. -/
def splitFunctionName (name : String) : String × String :=
  match lastDotIndex name.toList with
  | some i => (String.mk (name.toList.take i), String.mk (name.toList.drop (i + 1)))
  | none => ("", name)

/-- Modelled from the spec: the attribute name constant for the line number,
declared elsewhere in the repository; the spec fixes only that the four
names are fixed and distinct. -/
def AttributeCodeLineno : String := "code.lineno"

/-- Modelled from the spec: the attribute name constant for the namespace. -/
def AttributeCodeNamespace : String := "code.namespace"

/-- Modelled from the spec: the attribute name constant for the file path. -/
def AttributeCodeFilepath : String := "code.filepath"

/-- Modelled from the spec: the attribute name constant for the function. -/
def AttributeCodeFunction : String := "code.function"

/-- One call to the attribute sink `setAttr(name, stringValue, otherValue)`:
the third argument holds the numeric line number or nil. -/
structure AttrCall where
  name : String
  stringValue : String
  otherValue : Option Int
deriving DecidableEq

/-- Embeds lines 399 to 441 of `reportCodeLevelMetrics`: the reported
location is the explicit override when present; otherwise, with a non-empty
captured stack (`depth > 0`), the frame selected by the walk under the
effective ignored prefixes; with an empty capture the zero location. The
`stack` argument lists the frames captured by `runtime.Callers(2, pcs)`,
innermost first. -/
def resolveReportLocation (tOpts : traceOptSet) (cfg : CLMConfig)
    (stack : List Frame) : CodeLocation :=
  match tOpts.LocationOverride with
  | some loc => loc
  | none =>
      match stack with
      | [] => { LineNo := 0, Function := "", FilePath := "" }
      | _ :: _ =>
          let f := selectFrame (effectiveIgnoredPrefixes tOpts cfg) stack
          { LineNo := f.Line, Function := f.Function, FilePath := f.File }

/-- Embeds lines 443 to 449 of the source: the effective path-prefix slice is
the one from the settings when non-nil, else the configured plural list with
the legacy singular appended when non-empty (Go append on nil making the
slice non-nil). -/
def effectivePathPrefixes (tOpts : traceOptSet) (cfg : CLMConfig) :
    Option (List String) :=
  match tOpts.PathPrefixes with
  | some l => some l
  | none =>
      if cfg.PathPrefix ≠ "" then
        some ((cfg.PathPrefixes.getD []) ++ [cfg.PathPrefix])
      else cfg.PathPrefixes

/-- Embeds `reportCodeLevelMetrics`: resolve the location, trim its file path
against the effective path prefixes (no trimming over a nil slice), split the
function name, and emit the four attribute calls in source order. The
returned list records every call made to `setAttr`. -/
def reportCodeLevelMetrics (tOpts : traceOptSet) (cfg : CLMConfig)
    (stack : List Frame) : List AttrCall :=
  let location := resolveReportLocation tOpts cfg stack
  let filePath :=
    match effectivePathPrefixes tOpts cfg with
    | none => location.FilePath
    | some ps => trimPath location.FilePath ps
  let nsf := splitFunctionName location.Function
  [ { name := AttributeCodeLineno, stringValue := "", otherValue := some location.LineNo },
    { name := AttributeCodeNamespace, stringValue := nsf.1, otherValue := none },
    { name := AttributeCodeFilepath, stringValue := filePath, otherValue := none },
    { name := AttributeCodeFunction, stringValue := nsf.2, otherValue := none } ]

/-- Modelled from the spec: the physical call-stack layout seen by the inner
resolver of the cached wrapper, which is absent from src (it is produced by
the compiled wrapper layers at run time, not stated in the source text). Per
the spec, the cache inserts extra call frames between the original caller and
the resolver, their number being exactly the fixed compensation constant.
Given the stack an uncached resolver would observe at the call site (frame 0
the frame-capture routine, frame 1 the resolver, frame 2 the caller), the
inner resolver observes the same stack with the wrapper frames pushed in
between: its own two leading frames, then the wrapper frames, then the
frames from the original caller outward. -/
def innerResolverStack (wrappers : List Frame) (stack : List Frame) : List Frame :=
  stack.take 2 ++ wrappers ++ stack.drop 2

/-- Once an option in the processed part of the list has turned suppression
on, appending further options to the list leaves the fold result unchanged. -/
theorem applyCLMOptions_stop (l : List TraceOption) :
    ∀ (post : List TraceOption) (s : traceOptSet),
      (applyCLMOptions s l).SuppressCLM = true → s.SuppressCLM = false →
      applyCLMOptions s (l ++ post) = applyCLMOptions s l := by
  induction l with
  | nil =>
      intro post s h hs
      simp [applyCLMOptions] at h
      rw [h] at hs
      cases hs
  | cons o rest ih =>
      intro post s h hs
      by_cases hc : (o s).SuppressCLM = true
      · simp [applyCLMOptions, hc]
      · have hc' : (o s).SuppressCLM = false := by
          cases hb : (o s).SuppressCLM
          · rfl
          · exact absurd hb hc
        simp only [applyCLMOptions, List.cons_append, hc', if_false, Bool.false_eq_true,
          if_neg, reduceIte] at h ⊢
        exact ih post (o s) h hc'

/-- C4: `resolveCLMTraceOptions` folds the options left to right into a fresh
zero-valued settings value and stops the moment suppression turns on: when
the fold of `pre ++ [o]` ends suppressed, any options placed after `o` leave
the result exactly as it was without them. -/
theorem resolveCLMTraceOptions_short_circuit (pre post : List TraceOption) (o : TraceOption)
    (h : (resolveCLMTraceOptions (pre ++ [o])).SuppressCLM = true) :
    resolveCLMTraceOptions (pre ++ o :: post) = resolveCLMTraceOptions (pre ++ [o]) := by
  have e : pre ++ o :: post = (pre ++ [o]) ++ post := by simp
  rw [resolveCLMTraceOptions, e,
    applyCLMOptions_stop (pre ++ [o]) post emptyTraceOptSet h rfl]
  rfl

/-- A suppression option followed by a demand option: the demand flag stays
absent from the evaluated settings. -/
theorem resolveCLMTraceOptions_short_circuit_witness :
    resolveCLMTraceOptions ([WithCodeLevelMetrics] ++ WithoutCodeLevelMetrics ::
        [WithIgnoredPrefix (some ["x"])])
      = resolveCLMTraceOptions ([WithCodeLevelMetrics] ++ [WithoutCodeLevelMetrics]) :=
  resolveCLMTraceOptions_short_circuit [WithCodeLevelMetrics]
    [WithIgnoredPrefix (some ["x"])] WithoutCodeLevelMetrics (by decide)

/-- C6: `FunctionLocation` rejects the nil value and every non-function value
with the two invalid-argument errors, rejects a function value lacking
runtime metadata with the not-found error, and on success returns the
definition-site line, fully qualified name and file; every option helper
built on it (`WithFunctionLocation`, `WithDefaultFunctionLocation` and their
cached forms on a fresh cache) swallows such errors and returns the settings
unchanged. -/
theorem FunctionLocation_errors_and_option_noop :
    FunctionLocation GoValue.goNil = Except.error "nil function passed to FunctionLocation"
    ∧ (∀ k, FunctionLocation (GoValue.nonFunc k)
        = Except.error "value passed to FunctionLocation is not a function")
    ∧ FunctionLocation (GoValue.goFunc none)
        = Except.error "could not find code location for function"
    ∧ (∀ fInfo, FunctionLocation (GoValue.goFunc (some fInfo))
        = Except.ok { LineNo := fInfo.Line, Function := fInfo.Name, FilePath := fInfo.File })
    ∧ (∀ (fn : GoValue) (e : String) (o : traceOptSet) (c : CachedCodeLocation),
        FunctionLocation fn = Except.error e →
        WithFunctionLocation fn o = o
        ∧ WithDefaultFunctionLocation fn o = o
        ∧ (c.onceDone = false →
            (cachedWithFunctionLocation c fn o).1 = o
            ∧ (cachedWithDefaultFunctionLocation c fn o).1 = o)) := by
  refine ⟨rfl, fun k => rfl, rfl, fun fInfo => rfl, ?_⟩
  intro fn e o c h
  refine ⟨?_, ?_, ?_⟩
  · simp [WithFunctionLocation, h]
  · by_cases ho : o.LocationOverride = none <;>
      simp [WithDefaultFunctionLocation, WithFunctionLocation, h, ho]
  · intro hc
    refine ⟨?_, ?_⟩
    · simp [cachedWithFunctionLocation, cachedFunctionLocation, hc, h]
    · by_cases ho : o.LocationOverride = none <;>
        simp [cachedWithDefaultFunctionLocation, cachedFunctionLocation, hc, h, ho]

/-- Applying the option helper with the nil value leaves the fresh settings
untouched. -/
theorem FunctionLocation_errors_and_option_noop_witness :
    WithFunctionLocation GoValue.goNil emptyTraceOptSet = emptyTraceOptSet :=
  (FunctionLocation_errors_and_option_noop.2.2.2.2 GoValue.goNil
    "nil function passed to FunctionLocation" emptyTraceOptSet
    { Location := none, Err := none, onceDone := false } rfl).1

/-- C7: when a location override is already present, the stand-alone and the
cached `WithDefaultFunctionLocation` leave the settings (and the cache)
unchanged; when no override is present yet, both behave exactly as the
corresponding `WithFunctionLocation` variant. -/
theorem WithDefaultFunctionLocation_preserves_override (fn : GoValue) (o : traceOptSet)
    (c : CachedCodeLocation) (l : CodeLocation) :
    (o.LocationOverride = some l →
      WithDefaultFunctionLocation fn o = o
      ∧ cachedWithDefaultFunctionLocation c fn o = (o, c))
    ∧ (o.LocationOverride = none →
      WithDefaultFunctionLocation fn o = WithFunctionLocation fn o
      ∧ cachedWithDefaultFunctionLocation c fn o = cachedWithFunctionLocation c fn o) := by
  constructor
  · intro h
    constructor
    · simp [WithDefaultFunctionLocation, h]
    · simp [cachedWithDefaultFunctionLocation, h]
  · intro h
    constructor
    · simp [WithDefaultFunctionLocation, h]
    · cases hr : (cachedFunctionLocation c fn).1.2 <;>
        simp [cachedWithDefaultFunctionLocation, cachedWithFunctionLocation, h, hr,
          WithCodeLocation]

/-- A previously set override survives a later default-function option. -/
theorem WithDefaultFunctionLocation_preserves_override_witness :
    WithDefaultFunctionLocation (GoValue.goFunc (some { Name := "g", File := "g.go", Line := 3 }))
        { emptyTraceOptSet with LocationOverride := some { LineNo := 1, Function := "f", FilePath := "f.go" } }
      = { emptyTraceOptSet with LocationOverride := some { LineNo := 1, Function := "f", FilePath := "f.go" } } :=
  ((WithDefaultFunctionLocation_preserves_override
    (GoValue.goFunc (some { Name := "g", File := "g.go", Line := 3 }))
    { emptyTraceOptSet with LocationOverride := some { LineNo := 1, Function := "f", FilePath := "f.go" } }
    { Location := none, Err := none, onceDone := false }
    { LineNo := 1, Function := "f", FilePath := "f.go" }).1 rfl).1

/-- C10: both cached resolution methods run under the one shared once-guard
of the instance: either method sets the guard on its first run, and once the
guard is set, both methods — with any arguments — return the stored
`Location` and `Err` and leave the state unchanged; in particular a
resolution through one method fixes what the other method returns
afterwards. -/
theorem cachedCodeLocation_shared_once (c : CachedCodeLocation) (fn fn' : GoValue)
    (stack : List Frame) (sk : List Nat) :
    (cachedFunctionLocation c fn).2.onceDone = true
    ∧ (cachedThisCodeLocation c stack sk).2.onceDone = true
    ∧ (c.onceDone = true →
        cachedFunctionLocation c fn = ((c.Location, c.Err), c)
        ∧ cachedThisCodeLocation c stack sk = (c.Location, c))
    ∧ (cachedFunctionLocation (cachedThisCodeLocation c stack sk).2 fn').1.1
        = (cachedThisCodeLocation c stack sk).1
    ∧ (cachedThisCodeLocation (cachedFunctionLocation c fn).2 stack sk).1
        = (cachedFunctionLocation c fn).1.1 := by
  refine ⟨?_, ?_, ?_, ?_, ?_⟩
  · by_cases hc : c.onceDone <;> cases hFL : FunctionLocation fn <;>
      simp [cachedFunctionLocation, hc, hFL]
  · by_cases hc : c.onceDone <;> simp [cachedThisCodeLocation, hc]
  · intro hc
    constructor
    · simp [cachedFunctionLocation, hc]
    · simp [cachedThisCodeLocation, hc]
  · by_cases hc : c.onceDone <;>
      simp [cachedThisCodeLocation, cachedFunctionLocation, hc]
  · by_cases hc : c.onceDone <;> cases hFL : FunctionLocation fn <;>
      simp [cachedFunctionLocation, cachedThisCodeLocation, hc, hFL]

/-- A cache whose guard is set returns its stored result unchanged for a
function-location query about a different value. -/
theorem cachedCodeLocation_shared_once_witness :
    cachedFunctionLocation
        { Location := some { LineNo := 7, Function := "f", FilePath := "f.go" }, Err := none, onceDone := true }
        GoValue.goNil
      = ((some { LineNo := 7, Function := "f", FilePath := "f.go" }, none),
         { Location := some { LineNo := 7, Function := "f", FilePath := "f.go" }, Err := none, onceDone := true }) :=
  ((cachedCodeLocation_shared_once
    { Location := some { LineNo := 7, Function := "f", FilePath := "f.go" }, Err := none, onceDone := true }
    GoValue.goNil GoValue.goNil [] []).2.2.1 rfl).1

/-- C1: over any non-empty ignore-list, the stack walk picks the first frame
(innermost first) whose function name starts with no ignored prefix, and when
every frame matches an ignored prefix it picks the outermost (last examined)
frame instead of reporting nothing. -/
theorem selectFrame_first_unignored (ignored : List String) (hne : ignored ≠ []) :
    (∀ (pre : List Frame) (f : Frame) (post : List Frame),
        (∀ g ∈ pre, frameMatches ignored g = true) → frameMatches ignored f = false →
        selectFrame ignored (pre ++ f :: post) = f)
    ∧ (∀ (stack : List Frame) (f : Frame),
        (∀ g ∈ stack, frameMatches ignored g = true) → stack.getLast? = some f →
        selectFrame ignored stack = f) := by
  constructor
  · intro pre
    induction pre with
    | nil =>
        intro f post hpre hf
        cases post with
        | nil => simp [selectFrame]
        | cons p ps => simp [selectFrame, hf]
    | cons g pre' ih =>
        intro f post hpre hf
        have hg : frameMatches ignored g = true := hpre g (by simp)
        have hrest : ∀ x ∈ pre', frameMatches ignored x = true :=
          fun x hx => hpre x (by simp [hx])
        have hne2 : (pre' ++ f :: post).isEmpty = false := by
          cases pre' <;> simp [List.isEmpty]
        simp only [List.cons_append, selectFrame, List.append_eq, hne2, hg, if_true,
          if_false, Bool.false_eq_true, reduceIte]
        exact ih f post hrest hf
  · intro stack
    induction stack with
    | nil => intro f hall hlast; simp at hlast
    | cons g rest ih =>
        intro f hall hlast
        cases rest with
        | nil =>
            have : g = f := by simpa using hlast
            simp [selectFrame, this]
        | cons h2 t =>
            have hg : frameMatches ignored g = true := hall g (by simp)
            have hall' : ∀ x ∈ h2 :: t, frameMatches ignored x = true :=
              fun x hx => hall x (by simp [hx])
            have hlast' : (h2 :: t).getLast? = some f := by
              simpa [List.getLast?_cons_cons] using hlast
            simp only [selectFrame, List.isEmpty, hg, if_true, reduceIte]
            exact ih f hall' hlast'

/-- Resolution of the example stack of the spec: with frames A (application),
B and C (both agent-prefixed) and ignore-list ["agent-prefix"], frame A is
selected. -/
theorem selectFrame_first_unignored_witness :
    selectFrame ["agent-prefix"]
        ([] ++ { Function := "app.Main", File := "app.go", Line := 10 } ::
          [ { Function := "agent-prefixB", File := "b.go", Line := 2 },
            { Function := "agent-prefixC", File := "c.go", Line := 3 } ])
      = { Function := "app.Main", File := "app.go", Line := 10 } :=
  (selectFrame_first_unignored ["agent-prefix"] (by decide)).1 []
    { Function := "app.Main", File := "app.go", Line := 10 }
    [ { Function := "agent-prefixB", File := "b.go", Line := 2 },
      { Function := "agent-prefixC", File := "c.go", Line := 3 } ]
    (by simp) (by decide)

/-- C2 counterexample: with suppression turned on in the evaluated settings,
`reportCodeLevelMetrics` still calls the attribute sink — the emitted call
list is not empty. -/
theorem reportCodeLevelMetrics_suppressed_still_emits :
    reportCodeLevelMetrics { emptyTraceOptSet with SuppressCLM := true }
        { IgnoredPrefixes := none, IgnoredPrefix := "", PathPrefixes := none, PathPrefix := "" }
        [] ≠ [] := by decide

/-- C2 amended: `reportCodeLevelMetrics` never inspects the suppression flag;
it emits exactly four attribute calls for every settings value, suppressed or
not — bypassing it on suppression is entirely the responsibility of the
caller. -/
theorem reportCodeLevelMetrics_always_emits_four (tOpts : traceOptSet) (cfg : CLMConfig)
    (stack : List Frame) :
    (reportCodeLevelMetrics tOpts cfg stack).length = 4 := rfl

/-- C8: the path-prefix scan tries the prefixes in order; when none occurs in
the path the path is unchanged, and at the first prefix occurring (at
position i) the path is cut to start there and later prefixes are never
applied; the file-path attribute emitted by `reportCodeLevelMetrics` is the
trimmed path whenever the settings carry a non-nil prefix list; and the
worked example of the spec holds. -/
theorem trimPath_first_occurrence (path : String) :
    (∀ ps : List String, (∀ p ∈ ps, strIndex path p = none) → trimPath path ps = path)
    ∧ (∀ (pre : List String) (p : String) (post : List String) (i : Nat),
        (∀ q ∈ pre, strIndex path q = none) → strIndex path p = some i →
        trimPath path (pre ++ p :: post) = String.mk (path.toList.drop i))
    ∧ (∀ (tOpts : traceOptSet) (cfg : CLMConfig) (stack : List Frame) (ps : List String),
        tOpts.PathPrefixes = some ps →
        (reportCodeLevelMetrics tOpts cfg stack).get? 2 = some
          { name := AttributeCodeFilepath,
            stringValue := trimPath (resolveReportLocation tOpts cfg stack).FilePath ps,
            otherValue := none })
    ∧ trimPath "/home/user/project/src/pkg/file.go" ["pkg/"] = "pkg/file.go" := by
  refine ⟨?_, ?_, ?_, by decide⟩
  · intro ps
    induction ps with
    | nil => intro h; rfl
    | cons p rest ih =>
        intro h
        have hp : strIndex path p = none := h p (by simp)
        have hrest : ∀ q ∈ rest, strIndex path q = none := fun q hq => h q (by simp [hq])
        simp [trimPath, hp, ih hrest]
  · intro pre
    induction pre with
    | nil =>
        intro p post i hpre hp
        simp [trimPath, hp]
    | cons q pre' ih =>
        intro p post i hpre hp
        have hq : strIndex path q = none := hpre q (by simp)
        have hpre' : ∀ x ∈ pre', strIndex path x = none := fun x hx => hpre x (by simp [hx])
        simp only [List.cons_append, trimPath, hq]
        exact ih p post i hpre' hp
  · intro tOpts cfg stack ps h
    simp [reportCodeLevelMetrics, effectivePathPrefixes, h]

/-- The worked trim: a non-matching first prefix is skipped and the path is
cut at the occurrence of the second. -/
theorem trimPath_first_occurrence_witness :
    trimPath "/home/user/project/src/pkg/file.go" (["zz/"] ++ "pkg/" :: [])
      = String.mk ("/home/user/project/src/pkg/file.go".toList.drop 23) :=
  (trimPath_first_occurrence "/home/user/project/src/pkg/file.go").2.1 ["zz/"] "pkg/" [] 23
    (by decide) (by decide)


/-- A character list without a dot has no last-dot position. -/
theorem lastDotIndex_of_no_dot (l : List Char) (h : '.' ∉ l) : lastDotIndex l = none := by
  induction l with
  | nil => rfl
  | cons c rest ih =>
      have hc : ¬(c = '.') := fun e => h (by simp [e])
      have hrest : '.' ∉ rest := fun e => h (by simp [e])
      simp [lastDotIndex, ih hrest, hc]

/-- When the suffix after a dot holds no further dot, the last-dot position
is the length of the part before the dot. -/
theorem lastDotIndex_append (a b : List Char) (h : '.' ∉ b) :
    lastDotIndex (a ++ '.' :: b) = some a.length := by
  induction a with
  | nil => simp [lastDotIndex, lastDotIndex_of_no_dot b h]
  | cons c a' ih => simp [lastDotIndex, ih]

/-- C9: the reporter splits the fully qualified function name at the last dot
into the namespace part (before) and the bare function name (after); without
a dot the namespace is empty and the function is the whole name; the
namespace and function attributes emitted by `reportCodeLevelMetrics` are
exactly those two parts of the resolved location; and the worked example of
the spec holds. -/
theorem splitFunctionName_last_dot :
    (∀ a b : String, '.' ∉ b.toList →
        splitFunctionName (String.mk (a.toList ++ '.' :: b.toList)) = (a, b))
    ∧ (∀ s : String, '.' ∉ s.toList → splitFunctionName s = ("", s))
    ∧ (∀ (tOpts : traceOptSet) (cfg : CLMConfig) (stack : List Frame),
        (reportCodeLevelMetrics tOpts cfg stack).get? 1 = some
          { name := AttributeCodeNamespace,
            stringValue := (splitFunctionName (resolveReportLocation tOpts cfg stack).Function).1,
            otherValue := none }
        ∧ (reportCodeLevelMetrics tOpts cfg stack).get? 3 = some
          { name := AttributeCodeFunction,
            stringValue := (splitFunctionName (resolveReportLocation tOpts cfg stack).Function).2,
            otherValue := none })
    ∧ splitFunctionName "mypkg/sub.Handler" = ("mypkg/sub", "Handler") := by
  refine ⟨?_, ?_, ?_, by decide⟩
  · intro a b h
    have hmk : (String.mk (a.toList ++ '.' :: b.toList)).toList
        = a.toList ++ '.' :: b.toList := rfl
    simp only [splitFunctionName, hmk, lastDotIndex_append a.toList b.toList h]
    have ht : (a.toList ++ '.' :: b.toList).take a.toList.length = a.toList := by
      simp [List.take_left a.toList ('.' :: b.toList)]
    have hd : (a.toList ++ '.' :: b.toList).drop (a.toList.length + 1) = b.toList := by
      have e : a.toList ++ '.' :: b.toList = (a.toList ++ ['.']) ++ b.toList := by simp
      have hl : (a.toList ++ ['.']).length = a.toList.length + 1 := by simp
      rw [e, ← hl, List.drop_left]
    rw [ht, hd]
    rfl
  · intro s h
    have h2 : lastDotIndex s.data = none := lastDotIndex_of_no_dot s.toList h
    simp [splitFunctionName, h2]
  · intro tOpts cfg stack
    constructor <;> simp [reportCodeLevelMetrics]

/-- The worked split: the example name of the spec decomposes at its last
dot. -/
theorem splitFunctionName_last_dot_witness :
    splitFunctionName (String.mk ("mypkg/sub".toList ++ '.' :: "Handler".toList))
      = ("mypkg/sub", "Handler") :=
  splitFunctionName_last_dot.1 "mypkg/sub" "Handler" (by decide)

/-- C5: on a fresh cache instance, for every skip value, every caller stack
and every choice of wrapper frames whose count equals the fixed compensation
constant four, the cached resolver invoked over the wrapper-extended stack
returns exactly the location the uncached `ThisCodeLocation` returns for the
same skip at the same call site: the internal skip + 4 adjustment cancels the
inserted wrapper frames precisely, too-short stacks included (both sides then
degrade to the zero location). -/
theorem thisCodeLocation_cached_matches_uncached (stack wrappers : List Frame)
    (skip : Nat) (c : CachedCodeLocation) (hw : wrappers.length = 4)
    (hc : c.onceDone = false) :
    (cachedThisCodeLocation c (innerResolverStack wrappers stack) [skip]).1
      = some (ThisCodeLocation stack [skip]) := by
  rcases wrappers with _ | ⟨w1, _ | ⟨w2, _ | ⟨w3, _ | ⟨w4, _ | ⟨w5, wrest⟩⟩⟩⟩⟩ <;>
    simp at hw
  have e : 2 + (skip + 4) = skip + 1 + 1 + 1 + 1 + 1 + 1 := by omega
  have e2 : 2 + skip = skip + 1 + 1 := by omega
  rcases stack with _ | ⟨a, _ | ⟨b, rest⟩⟩ <;>
    · simp only [cachedThisCodeLocation, thisCodeLocationImpl, ThisCodeLocation,
        innerResolverStack, hc, e, e2]
      simp [List.drop_succ_cons]

/-- With four concrete wrapper frames inserted, a fresh cache resolving at
skip 0 reports the same caller frame as the uncached resolver. -/
theorem thisCodeLocation_cached_matches_uncached_witness :
    (cachedThisCodeLocation { Location := none, Err := none, onceDone := false }
        (innerResolverStack
          [ { Function := "wrapper1", File := "w.go", Line := 1 },
            { Function := "wrapper2", File := "w.go", Line := 2 },
            { Function := "wrapper3", File := "w.go", Line := 3 },
            { Function := "wrapper4", File := "w.go", Line := 4 } ]
          [ { Function := "capture", File := "rt.go", Line := 0 },
            { Function := "resolver", File := "clm.go", Line := 5 },
            { Function := "app.Caller", File := "app.go", Line := 42 } ])
        [0]).1
      = some (ThisCodeLocation
          [ { Function := "capture", File := "rt.go", Line := 0 },
            { Function := "resolver", File := "clm.go", Line := 5 },
            { Function := "app.Caller", File := "app.go", Line := 42 } ] [0]) :=
  thisCodeLocation_cached_matches_uncached
    [ { Function := "capture", File := "rt.go", Line := 0 },
      { Function := "resolver", File := "clm.go", Line := 5 },
      { Function := "app.Caller", File := "app.go", Line := 42 } ]
    [ { Function := "wrapper1", File := "w.go", Line := 1 },
      { Function := "wrapper2", File := "w.go", Line := 2 },
      { Function := "wrapper3", File := "w.go", Line := 3 },
      { Function := "wrapper4", File := "w.go", Line := 4 } ]
    0 { Location := none, Err := none, onceDone := false } rfl rfl
